import Mathlib

/-!
Verification of the commitment engine of the verifiable relational data
service (canonical hashing, SMT proof verifier, verifiable write engine,
dual-root commitment manager).

The Rust source is embedded shallowly:

* 32-byte digests (`primitive_types::H256`) become `Digest := List Nat`
  (one `Nat` per byte); the zero digest is 32 zero bytes.
* SHA-256 and the external `sparse_merkle_tree` crate are cryptographic /
  third-party black boxes.  They are passed in as explicit function
  parameters (`sha256`, `compute_root`, ...); every property proved here
  holds for all instantiations, and every refuted property is refuted at a
  concrete, realizable instantiation.  In particular
  `MerkleProof::compute_root` returns `Result<H256, Error>` in the crate,
  modeled as `Option Digest` with `none` for the error case, and
  `.unwrap_or_default()` becomes `Option.getD · zeroDigest`.
* `serde_json::Value` becomes the `Json` inductive type; an object is its
  (ordered) list of entries, an array its list of items, and a number is
  represented by the decimal text serde_json renders for it (serde_json
  renders each `Number` deterministically, so a number is determined by its
  rendering).
-/

namespace VerifiableMemory

/-- A 32-byte digest (`primitive_types::H256`), one `Nat` per byte. -/
abbrev Digest : Type := List Nat

/-- The zero digest `H256::zero()` / `H256::default()`: 32 zero bytes. -/
def zeroDigest : Digest := List.replicate 32 0

/-- Lowercase hex digit, as produced by the `hex` crate. -/
def hexDigitChar (n : Nat) : Char :=
  if n < 10 then Char.ofNat (48 + n) else Char.ofNat (87 + n)

/-- Two lowercase hex characters for one byte. -/
def hexByte (b : Nat) : List Char := [hexDigitChar (b / 16), hexDigitChar (b % 16)]

/-- Embedding of `hex::encode` on a digest. -/
def hexEncode (d : Digest) : String :=
  String.mk (d.foldr (fun b acc => hexByte b ++ acc) [])

/-- UTF-8 encoding of a single code point (byte values as `Nat`). -/
def utf8EncodeChar (n : Nat) : List Nat :=
  if n < 128 then [n]
  else if n < 2048 then [192 + n / 64, 128 + n % 64]
  else if n < 65536 then [224 + n / 4096, 128 + n / 64 % 64, 128 + n % 64]
  else [240 + n / 262144, 128 + n / 4096 % 64, 128 + n / 64 % 64, 128 + n % 64]

/-- UTF-8 byte encoding of a character list. -/
def utf8EncodeChars (cs : List Char) : List Nat :=
  cs.foldr (fun c acc => utf8EncodeChar c.toNat ++ acc) []

/-- UTF-8 byte encoding of a string (Rust `str::as_bytes`). -/
def utf8Encode (s : String) : List Nat :=
  utf8EncodeChars s.data

/-- Domain tag `LEAF_DOMAIN = b"VERIFLEAF"` from `crypto/hashing.rs`. -/
def LEAF_DOMAIN : List Nat := utf8Encode "VERIFLEAF"

/-- Domain tag `NODE_DOMAIN = b"VERIFNODE"` from `crypto/hashing.rs`. -/
def NODE_DOMAIN : List Nat := utf8Encode "VERIFNODE"

/-- The exact byte string `hash_key` feeds to SHA-256:
`NODE_DOMAIN || table_name bytes || primary_key bytes` (no separators). -/
def hashKeyInput (table_name primary_key : String) : List Nat :=
  NODE_DOMAIN ++ utf8Encode table_name ++ utf8Encode primary_key

/-- Embedding of `hash_key` (`crypto/hashing.rs`), parametric in SHA-256. -/
def hash_key (sha256 : List Nat → Digest) (table_name primary_key : String) : Digest :=
  sha256 (hashKeyInput table_name primary_key)

/-- Embedding of `serde_json::Value`.  Object entries are kept in order
(an association list); `num` carries the deterministic decimal rendering
serde_json produces for the number. -/
inductive Json where
  | null
  | bool (b : Bool)
  | num (rendered : String)
  | str (s : String)
  | arr (items : List Json)
  | obj (entries : List (String × Json))

/-- Key order used by `BTreeMap<String, Value>`: lexicographic on the
string; code-point order coincides with UTF-8 byte order. -/
def entryLe (a b : String × Json) : Prop := a.1 ≤ b.1

instance : DecidableRel entryLe := fun a b => inferInstanceAs (Decidable (a.1 ≤ b.1))

instance : IsTotal (String × Json) entryLe := ⟨fun a b => le_total a.1 b.1⟩

instance : IsTrans (String × Json) entryLe := ⟨fun _ _ _ h1 h2 => le_trans h1 h2⟩

mutual
/-- Embedding of `sort_json_value` (`crypto/hashing.rs`): recursively sort
object keys (collecting into a `BTreeMap` sorts by key), keep arrays in
order, return scalars unchanged. -/
def sort_json_value (v : Json) : Json :=
  match v with
  | .null => .null
  | .bool b => .bool b
  | .num s => .num s
  | .str s => .str s
  | .arr items => .arr (sortJsonList items)
  | .obj entries => .obj (List.insertionSort entryLe (sortJsonEntries entries))
termination_by sizeOf v

/-- Recursive sorting of the items of a JSON array. -/
def sortJsonList (items : List Json) : List Json :=
  match items with
  | [] => []
  | v :: rest => sort_json_value v :: sortJsonList rest
termination_by sizeOf items

/-- Recursive sorting of the values of object entries. -/
def sortJsonEntries (entries : List (String × Json)) : List (String × Json) :=
  match entries with
  | [] => []
  | (k, v) :: rest => (k, sort_json_value v) :: sortJsonEntries rest
termination_by sizeOf entries
end

/-- JSON string escaping as rendered by serde_json (RFC 8259): quote and
backslash escaped, control characters as short escapes or lowercase
unicode escapes, everything else verbatim. -/
def escapeChar (c : Char) : String :=
  if c = '"' then "\\\""
  else if c = '\\' then "\\\\"
  else if c.toNat = 8 then "\\b"
  else if c.toNat = 9 then "\\t"
  else if c.toNat = 10 then "\\n"
  else if c.toNat = 12 then "\\f"
  else if c.toNat = 13 then "\\r"
  else if c.toNat < 32 then
    "\\u00" ++ String.mk [hexDigitChar (c.toNat / 16), hexDigitChar (c.toNat % 16)]
  else String.mk [c]

/-- Escape every character of a JSON string body. -/
def escapeString (s : String) : String := s.data.foldl (fun acc c => acc ++ escapeChar c) ""

mutual
/-- Embedding of `serde_json::to_string`: compact JSON, no extra
whitespace. -/
def serializeJson (v : Json) : String :=
  match v with
  | .null => "null"
  | .bool true => "true"
  | .bool false => "false"
  | .num s => s
  | .str s => "\"" ++ escapeString s ++ "\""
  | .arr items => "[" ++ serializeJsonList items ++ "]"
  | .obj entries => "\x7b" ++ serializeJsonEntries entries ++ "\x7d"
termination_by sizeOf v

/-- Comma-separated serialization of array items. -/
def serializeJsonList (items : List Json) : String :=
  match items with
  | [] => ""
  | [v] => serializeJson v
  | v :: rest => serializeJson v ++ "," ++ serializeJsonList rest
termination_by sizeOf items

/-- Comma-separated serialization of object entries. -/
def serializeJsonEntries (entries : List (String × Json)) : String :=
  match entries with
  | [] => ""
  | [(k, v)] => "\"" ++ escapeString k ++ "\":" ++ serializeJson v
  | (k, v) :: rest =>
      "\"" ++ escapeString k ++ "\":" ++ serializeJson v ++ "," ++ serializeJsonEntries rest
termination_by sizeOf entries
end

/-- The exact byte string `hash_value` feeds to SHA-256:
`LEAF_DOMAIN || canonical serialization of the key-sorted value`. -/
def hashValueInput (v : Json) : List Nat :=
  LEAF_DOMAIN ++ utf8Encode (serializeJson (sort_json_value v))

/-- Embedding of `hash_value` (`crypto/hashing.rs`), parametric in SHA-256. -/
def hash_value (sha256 : List Nat → Digest) (v : Json) : Digest :=
  sha256 (hashValueInput v)

/-- Embedding of `verify_smt_multi_update_proof` (`domain/verify/verifier.rs`).
The external `MerkleProof::compute_root` is the parameter `compute_root`
(`none` models the crate returning an error); `.unwrap_or_default()` is
`Option.getD · zeroDigest`. -/
def verify_smt_multi_update_proof
    (compute_root : List (Digest × Digest) → Option Digest)
    (trusted_root proposed_root : Digest)
    (keys new_values : List Digest) : Bool :=
  let old_leaves := keys.map (fun k => (k, zeroDigest))
  let new_leaves := keys.zip new_values
  let calculated_old_root := (compute_root old_leaves).getD zeroDigest
  if calculated_old_root ≠ trusted_root then false
  else decide ((compute_root new_leaves).getD zeroDigest = proposed_root)

/-- Embedding of `verify_smt_multi_update_proof_with_old_values`
(`domain/verify/verifier.rs`), with the same conventions. -/
def verify_smt_multi_update_proof_with_old_values
    (compute_root : List (Digest × Digest) → Option Digest)
    (trusted_root proposed_root : Digest)
    (keys old_values new_values : List Digest) : Bool :=
  if keys.length ≠ old_values.length ∨ keys.length ≠ new_values.length then false
  else
    let old_leaves := keys.zip old_values
    let new_leaves := keys.zip new_values
    let calculated_old_root := (compute_root old_leaves).getD zeroDigest
    if calculated_old_root ≠ trusted_root then false
    else decide ((compute_root new_leaves).getD zeroDigest = proposed_root)

/-- Zipping a list with equally many copies of the zero digest is the same
as pairing every key with the zero digest. -/
theorem zip_replicate_zeroDigest (keys : List Digest) :
    keys.zip (List.replicate keys.length zeroDigest) = keys.map (fun k => (k, zeroDigest)) := by
  induction keys with
  | nil => rfl
  | cons k rest ih => simp [List.replicate_succ, ih]

/-- C1 (amended): `verify_smt_multi_update_proof_with_old_values` returns
true iff the three lists have equal lengths, the root recomputed from the
proof with the old leaf values — with a failed recomputation yielding the
zero digest — equals `trusted_root`, and the root recomputed with the new
leaf values — again zero on failure — equals `proposed_root`.  It is total
and returns false on any length mismatch or root mismatch; a malformed
proof is not rejected as such but treated as recomputing the zero digest. -/
theorem verify_with_old_values_correct
    (compute_root : List (Digest × Digest) → Option Digest)
    (trusted_root proposed_root : Digest) (keys old_values new_values : List Digest) :
    verify_smt_multi_update_proof_with_old_values compute_root trusted_root proposed_root
        keys old_values new_values = true ↔
      (keys.length = old_values.length ∧ keys.length = new_values.length ∧
       (compute_root (keys.zip old_values)).getD zeroDigest = trusted_root ∧
       (compute_root (keys.zip new_values)).getD zeroDigest = proposed_root) := by
  unfold verify_smt_multi_update_proof_with_old_values
  by_cases hlen : keys.length ≠ old_values.length ∨ keys.length ≠ new_values.length
  · rw [if_pos hlen]
    simp only [Bool.false_eq_true, false_iff, not_and]
    intro h1 h2
    rcases hlen with h | h
    · exact absurd h1 h
    · exact absurd h2 h
  · push_neg at hlen
    obtain ⟨h1, h2⟩ := hlen
    rw [if_neg (by push_neg; exact ⟨h1, h2⟩)]
    by_cases hold : (compute_root (keys.zip old_values)).getD zeroDigest = trusted_root
    · simp only [hold]
      simp [h1, h2, hold]
      intro _
      omega
    · simp [h1, h2, hold]

/-- C1 counterexample: the claim states the verifier returns false whenever
the proof is malformed; but a malformed proof (the crate's `compute_root`
returns an error for every leaf list, modeled by the constantly-`none`
function) is accepted when both the trusted and the proposed root equal the
zero digest, because `.unwrap_or_default()` turns the error into the zero
root on both recomputations.  The three lists have matching lengths here,
so only the malformed proof is at issue. -/
theorem verify_with_old_values_accepts_malformed_proof :
    verify_smt_multi_update_proof_with_old_values (fun _ => none) zeroDigest zeroDigest
      [zeroDigest] [zeroDigest] [zeroDigest] = true := by
  decide

/-- C10: on key and new-value lists of equal length, the zero-old-value
verifier `verify_smt_multi_update_proof` agrees with
`verify_smt_multi_update_proof_with_old_values` applied to an all-zero
old-value list of the same length, for every proof (every `compute_root`
instantiation). -/
theorem verify_multi_update_refines_with_old_values
    (compute_root : List (Digest × Digest) → Option Digest)
    (trusted_root proposed_root : Digest) (keys new_values : List Digest)
    (hlen : keys.length = new_values.length) :
    verify_smt_multi_update_proof compute_root trusted_root proposed_root keys new_values =
      verify_smt_multi_update_proof_with_old_values compute_root trusted_root proposed_root
        keys (List.replicate keys.length zeroDigest) new_values := by
  unfold verify_smt_multi_update_proof verify_smt_multi_update_proof_with_old_values
  rw [zip_replicate_zeroDigest]
  simp [hlen]

/-- Witness for C10 at a concrete input. -/
theorem verify_multi_update_refines_with_old_values_witness :
    ([zeroDigest] : List Digest).length = ([zeroDigest] : List Digest).length ∧
    verify_smt_multi_update_proof (fun _ => some zeroDigest) zeroDigest zeroDigest
        [zeroDigest] [zeroDigest] =
      verify_smt_multi_update_proof_with_old_values (fun _ => some zeroDigest) zeroDigest
        zeroDigest [zeroDigest] (List.replicate ([zeroDigest] : List Digest).length zeroDigest)
        [zeroDigest] :=
  ⟨rfl, verify_multi_update_refines_with_old_values _ _ _ _ _ rfl⟩

/-- A UTF-8 character encoding is never empty. -/
theorem utf8EncodeChar_ne_nil (n : Nat) : utf8EncodeChar n ≠ [] := by
  unfold utf8EncodeChar
  split_ifs <;> simp

/-- UTF-8 is a prefix-free code: equal byte streams starting with encoded
characters force the leading characters and the remainders to agree. -/
theorem utf8EncodeChar_append_inj (m n : Nat) (A B : List Nat)
    (h : utf8EncodeChar m ++ A = utf8EncodeChar n ++ B) : m = n ∧ A = B := by
  unfold utf8EncodeChar at h
  split_ifs at h <;>
    simp only [List.cons_append, List.nil_append, List.cons.injEq] at h <;>
    obtain ⟨h1, h⟩ := h
  all_goals try (exfalso; omega)
  · exact ⟨h1, h⟩
  · obtain ⟨h2, hAB⟩ := h
    exact ⟨by omega, hAB⟩
  · obtain ⟨h2, h3, hAB⟩ := h
    exact ⟨by omega, hAB⟩
  · obtain ⟨h2, h3, h4, hAB⟩ := h
    exact ⟨by omega, hAB⟩

/-- UTF-8 encoding of character lists is injective. -/
theorem utf8EncodeChars_inj : ∀ xs ys : List Char,
    utf8EncodeChars xs = utf8EncodeChars ys → xs = ys := by
  intro xs
  induction xs with
  | nil =>
      intro ys h
      cases ys with
      | nil => rfl
      | cons d ds =>
          exfalso
          have hne := utf8EncodeChar_ne_nil d.toNat
          simp only [utf8EncodeChars, List.foldr] at h
          cases hk : utf8EncodeChar d.toNat with
          | nil => exact hne hk
          | cons b bs => rw [hk] at h; simp at h
  | cons c cs ih =>
      intro ys h
      cases ys with
      | nil =>
          exfalso
          have hne := utf8EncodeChar_ne_nil c.toNat
          simp only [utf8EncodeChars, List.foldr] at h
          cases hk : utf8EncodeChar c.toNat with
          | nil => exact hne hk
          | cons b bs => rw [hk] at h; simp at h
      | cons d ds =>
          simp only [utf8EncodeChars, List.foldr] at h
          obtain ⟨hc, hrest⟩ := utf8EncodeChar_append_inj c.toNat d.toNat _ _ h
          have hcd : c = d := Char.ext (UInt32.ext hc)
          have := ih ds hrest
          rw [hcd, this]

/-- UTF-8 encoding distributes over list concatenation. -/
theorem utf8EncodeChars_append (xs ys : List Char) :
    utf8EncodeChars (xs ++ ys) = utf8EncodeChars xs ++ utf8EncodeChars ys := by
  induction xs with
  | nil => rfl
  | cons c cs ih => simp [utf8EncodeChars, List.foldr] at ih ⊢; simp [ih]

/-- UTF-8 encoding of strings distributes over append. -/
theorem utf8Encode_append (s t : String) :
    utf8Encode (s ++ t) = utf8Encode s ++ utf8Encode t := by
  unfold utf8Encode
  rw [String.data_append, utf8EncodeChars_append]

/-- UTF-8 encoding of strings is injective. -/
theorem utf8Encode_inj (s t : String) (h : utf8Encode s = utf8Encode t) : s = t := by
  have := utf8EncodeChars_inj s.data t.data h
  cases s; cases t; simp_all

/-- The SHA-256 input of `hash_key` depends only on the concatenation of
table name and primary key. -/
theorem hashKeyInput_eq_concat (t pk : String) :
    hashKeyInput t pk = NODE_DOMAIN ++ utf8Encode (t ++ pk) := by
  unfold hashKeyInput
  rw [utf8Encode_append, List.append_assoc]

/-- C4 counterexample: two distinct `(table, pk)` pairs whose tagged byte
strings — and hence whose `hash_key` digests — coincide, because table and
primary key are concatenated with no separator: `("ab", "c")` and
`("a", "bc")` both hash the bytes of `"VERIFNODEabc"`.  This refutes the
claim that the SHA-256 input differs for every two distinct pairs. -/
theorem hash_key_input_collision :
    hashKeyInput "ab" "c" = hashKeyInput "a" "bc" ∧
      (("ab", "c") : String × String) ≠ ("a", "bc") := by
  constructor
  · decide
  · decide

/-- C4 (amended): the byte string fed to SHA-256 by `hash_key` is injective
in the concatenation `table ++ pk` — two pairs collide exactly when their
concatenations agree.  In particular, for a fixed table name, distinct
primary keys always produce distinct SHA-256 inputs (and so distinct
digests up to SHA-256 collision resistance); full injectivity across
arbitrary `(table, pk)` pairs fails (see the counterexample). -/
theorem hash_key_input_inj_on_concat :
    (∀ t pk t' pk' : String, t ++ pk ≠ t' ++ pk' → hashKeyInput t pk ≠ hashKeyInput t' pk') ∧
    (∀ t pk pk' : String, pk ≠ pk' → hashKeyInput t pk ≠ hashKeyInput t pk') := by
  have main : ∀ t pk t' pk' : String,
      t ++ pk ≠ t' ++ pk' → hashKeyInput t pk ≠ hashKeyInput t' pk' := by
    intro t pk t' pk' hne heq
    rw [hashKeyInput_eq_concat, hashKeyInput_eq_concat] at heq
    exact hne (utf8Encode_inj _ _ (List.append_cancel_left heq))
  refine ⟨main, fun t pk pk' hne => main t pk t pk' ?_⟩
  intro heq
  apply hne
  have hdata : (t ++ pk).data = (t ++ pk').data := by rw [heq]
  rw [String.data_append, String.data_append] at hdata
  have := List.append_cancel_left hdata
  cases pk; cases pk'; simp_all

/-- Witness for C4's amended theorem at concrete inputs. -/
theorem hash_key_input_inj_on_concat_witness :
    (("a" : String) ++ "b" ≠ "c" ++ "d" ∧ hashKeyInput "a" "b" ≠ hashKeyInput "c" "d") ∧
    (("x" : String) ≠ "y" ∧ hashKeyInput "t" "x" ≠ hashKeyInput "t" "y") :=
  ⟨⟨by decide, hash_key_input_inj_on_concat.1 "a" "b" "c" "d" (by decide)⟩,
   ⟨by decide, hash_key_input_inj_on_concat.2 "t" "x" "y" (by decide)⟩⟩

/-- A convenient nonzero digest used in witnesses and counterexamples. -/
def oneDigest : Digest := 1 :: List.replicate 31 0

/-- Result of `RootManager::load_root_from_file`: a readable file with a
64-hex-character root parses to `ok root`; any read, JSON-parse, hex-decode
or length failure is `corrupt`. -/
inductive FileLoad where
  | ok (root : Digest)
  | corrupt
deriving DecidableEq

/-- State owned by `RootManager` (`domain/commitment/root_manager.rs`):
the trusted-state file contents (`none` when the file does not exist),
`temporary_root`, `main_root`, the `update_counter`, and the
`commit_in_progress` flag. -/
structure RMState where
  file : Option FileLoad
  tempRoot : Digest
  mainRoot : Digest
  counter : Nat
  commitInProgress : Bool
deriving DecidableEq

/-- Observable effects of a RootManager operation, listed in execution
order (used to state ordering requirements such as file-before-memory). -/
inductive RMEvent where
  | acquiredRootLock
  | savedFile (root : Digest)
  | setTempRoot (root : Digest)
  | signaledCommit
  | setCommitFlag (b : Bool)
  | anchorWrite (root : Digest)
  | setMainRoot (root : Digest)
  | resetCounter
deriving DecidableEq

/-- Embedding of `RootManager::update_temporary_root`.  The leading
spin-wait only lets the body run once `commit_in_progress` is clear, so the
function models the body after the wait and the C5 theorem assumes the flag
is `false`.  `saveOk` tells whether `save_root_to_file` succeeds; on
failure the Rust code logs and continues.  The returned list records the
effects in the order the code performs them. -/
def update_temporary_root (batch_commit_size : Nat) (saveOk : Bool)
    (st : RMState) (new_root : Digest) : RMState × Bool × List RMEvent :=
  let saved :=
    if saveOk then ({ st with file := some (.ok new_root) }, [RMEvent.savedFile new_root])
    else (st, ([] : List RMEvent))
  let st2 := { saved.1 with tempRoot := new_root }
  let st3 := { st2 with counter := st2.counter + 1 }
  let triggers_commit := st3.counter % batch_commit_size == 0
  let events := saved.2 ++ [RMEvent.setTempRoot new_root] ++
    (if triggers_commit then [RMEvent.signaledCommit] else [])
  (st3, triggers_commit, events)

/-- C5: with no commit in progress and a successful file write,
`update_temporary_root` saves the trusted-state file with `new_root`
strictly before setting `temporary_root` (event order), sets
`temporary_root` to `new_root`, increments the counter by one, and returns
true iff the incremented counter is a multiple of the batch threshold
(`BATCH_COMMIT_SIZE` is clamped to at least 1 by `config::batch_commit_size`). -/
theorem update_temporary_root_correct (B : Nat) (st : RMState) (new_root : Digest)
    (_hB : 1 ≤ B) (_hflag : st.commitInProgress = false) :
    (update_temporary_root B true st new_root).1 =
      { st with file := some (.ok new_root), tempRoot := new_root,
                counter := st.counter + 1 } ∧
    ((update_temporary_root B true st new_root).2.1 = true ↔ B ∣ (st.counter + 1)) ∧
    (update_temporary_root B true st new_root).2.2 =
      RMEvent.savedFile new_root :: RMEvent.setTempRoot new_root ::
        (if (st.counter + 1) % B == 0 then [RMEvent.signaledCommit] else []) := by
  refine ⟨rfl, ?_, rfl⟩
  simp [update_temporary_root, Nat.dvd_iff_mod_eq_zero]

/-- Witness for C5 at a concrete state with counter 1 and threshold 2. -/
theorem update_temporary_root_correct_witness :
    ((update_temporary_root 2 true
        { file := none, tempRoot := zeroDigest, mainRoot := zeroDigest,
          counter := 1, commitInProgress := false } oneDigest).2.1 = true ↔ 2 ∣ (1 + 1)) :=
  (update_temporary_root_correct 2
    { file := none, tempRoot := zeroDigest, mainRoot := zeroDigest,
      counter := 1, commitInProgress := false } oneDigest (by decide) rfl).2.1

/-- Embedding of `RootManager::new` after `solana::read_root` has returned
`blockchain_root`.  `clearDb` models `CLEAR_DB=true` (which removes an
existing trusted-state file before initialization); `file` is the current
trusted-state file; `saveOk` tells whether the initial `save_root_to_file`
succeeds (on failure the code logs and continues).  A file that exists but
fails to load falls back to the blockchain root and is left untouched. -/
def rootManagerNew (clearDb saveOk : Bool) (blockchain_root : Digest)
    (file : Option FileLoad) : RMState :=
  let file1 := if clearDb then none else file
  match file1 with
  | some (.ok trusted_root) =>
      if trusted_root ≠ blockchain_root then
        { file := file1, tempRoot := trusted_root, mainRoot := blockchain_root,
          counter := 0, commitInProgress := false }
      else
        { file := file1, tempRoot := blockchain_root, mainRoot := blockchain_root,
          counter := 0, commitInProgress := false }
  | some .corrupt =>
      { file := file1, tempRoot := blockchain_root, mainRoot := blockchain_root,
        counter := 0, commitInProgress := false }
  | none =>
      { file := if saveOk then some (.ok blockchain_root) else none,
        tempRoot := blockchain_root, mainRoot := blockchain_root,
        counter := 0, commitInProgress := false }

/-- C7 counterexample: a trusted-state file that exists but cannot be
parsed does not hold a root different from the anchor root, so the claim
places it in the otherwise-branch and requires the file to be written with
the anchor root; the code instead falls back to the anchor root for
`temp_root` and leaves the unreadable file untouched. -/
theorem root_manager_new_leaves_corrupt_file :
    (rootManagerNew false true zeroDigest (some .corrupt)).tempRoot = zeroDigest ∧
    (rootManagerNew false true zeroDigest (some .corrupt)).file = some FileLoad.corrupt ∧
    (some FileLoad.corrupt ≠ some (FileLoad.ok zeroDigest)) :=
  ⟨rfl, rfl, by decide⟩

/-- C7 (amended): at startup with `CLEAR_DB` unset and a successful file
write, `main_root` is always the anchor root and the counter starts at 0;
if the trusted-state file exists and holds a root different from the
anchor root, that root becomes the initial `temp_root` and the file is kept;
otherwise `temp_root` is set to the anchor root, and the trusted-state file
is written with that root only when it did not exist — an existing file
whose root equals the anchor root, or which cannot be parsed, is left
unchanged. -/
theorem root_manager_new_startup (blockchain_root : Digest) (file : Option FileLoad) :
    ((rootManagerNew false true blockchain_root file).mainRoot = blockchain_root ∧
     (rootManagerNew false true blockchain_root file).counter = 0 ∧
     (rootManagerNew false true blockchain_root file).commitInProgress = false) ∧
    (∀ r, file = some (.ok r) → r ≠ blockchain_root →
        (rootManagerNew false true blockchain_root file).tempRoot = r ∧
        (rootManagerNew false true blockchain_root file).file = some (.ok r)) ∧
    (file = some (.ok blockchain_root) →
        (rootManagerNew false true blockchain_root file).tempRoot = blockchain_root ∧
        (rootManagerNew false true blockchain_root file).file = some (.ok blockchain_root)) ∧
    (file = none →
        (rootManagerNew false true blockchain_root file).tempRoot = blockchain_root ∧
        (rootManagerNew false true blockchain_root file).file = some (.ok blockchain_root)) ∧
    (file = some .corrupt →
        (rootManagerNew false true blockchain_root file).tempRoot = blockchain_root ∧
        (rootManagerNew false true blockchain_root file).file = some .corrupt) := by
  rcases file with _ | fl
  · simp [rootManagerNew]
  · rcases fl with r | _
    · by_cases hr : r = blockchain_root
      · subst hr
        simp [rootManagerNew]
      · simp [rootManagerNew, hr]
    · simp [rootManagerNew]

/-- Witness for C7's amended theorem: a file holding a root different from
the anchor root becomes the initial `temp_root`. -/
theorem root_manager_new_startup_witness :
    (rootManagerNew false true zeroDigest (some (.ok oneDigest))).tempRoot = oneDigest :=
  ((root_manager_new_startup zeroDigest (some (.ok oneDigest))).2.1 oneDigest rfl
    (by decide)).1

/-- Embedding of `RootManager::force_set_roots_and_commit`.  The Bool in
the result is `true` for `Ok(())` and `false` when the anchor
(`solana::write_root`) error is returned.  `anchorOk` tells whether the
anchor write succeeds; `saveOk` as in `update_temporary_root`.  The root
lock acquisition and the flag transitions are recorded as events. -/
def force_set_roots_and_commit (saveOk anchorOk : Bool) (st : RMState)
    (new_root : Digest) : RMState × Bool × List RMEvent :=
  let ev0 := [RMEvent.acquiredRootLock, RMEvent.setCommitFlag true]
  let st1 := { st with commitInProgress := true }
  let saved :=
    if saveOk then ({ st1 with file := some (.ok new_root) }, [RMEvent.savedFile new_root])
    else (st1, ([] : List RMEvent))
  let st3 := { saved.1 with tempRoot := new_root }
  let ev2 := [RMEvent.setTempRoot new_root, RMEvent.anchorWrite new_root]
  if anchorOk then
    ({ st3 with mainRoot := new_root, counter := 0, commitInProgress := false }, true,
      ev0 ++ saved.2 ++ ev2 ++
        [RMEvent.setMainRoot new_root, RMEvent.resetCounter, RMEvent.setCommitFlag false])
  else
    ({ st3 with commitInProgress := false }, false,
      ev0 ++ saved.2 ++ ev2 ++ [RMEvent.setCommitFlag false])

/-- C9: forced alignment acquires the root lock, sets the
commit-in-progress flag, persists the trusted-state file with `new_root`,
sets `temporary_root` to `new_root` and attempts the anchor commit (event
order); when the anchor commit succeeds it sets `main_root` to `new_root`,
resets the counter to 0 and clears the flag; when the anchor commit fails
it still clears the flag and returns the error (the Bool result is false). -/
theorem force_set_roots_and_commit_correct (anchorOk : Bool) (st : RMState)
    (new_root : Digest) :
    (anchorOk = true →
      force_set_roots_and_commit true anchorOk st new_root =
        ({ st with file := some (.ok new_root), tempRoot := new_root,
                   mainRoot := new_root, counter := 0, commitInProgress := false }, true,
         [RMEvent.acquiredRootLock, RMEvent.setCommitFlag true,
          RMEvent.savedFile new_root, RMEvent.setTempRoot new_root,
          RMEvent.anchorWrite new_root, RMEvent.setMainRoot new_root,
          RMEvent.resetCounter, RMEvent.setCommitFlag false])) ∧
    (anchorOk = false →
      force_set_roots_and_commit true anchorOk st new_root =
        ({ st with file := some (.ok new_root), tempRoot := new_root,
                   commitInProgress := false }, false,
         [RMEvent.acquiredRootLock, RMEvent.setCommitFlag true,
          RMEvent.savedFile new_root, RMEvent.setTempRoot new_root,
          RMEvent.anchorWrite new_root, RMEvent.setCommitFlag false])) := by
  cases anchorOk
  · exact ⟨(fun h => nomatch h), fun _ => rfl⟩
  · exact ⟨(fun _ => rfl), fun h => nomatch h⟩

/-- Witness for C9 at a concrete state, exercising both anchor outcomes. -/
theorem force_set_roots_and_commit_correct_witness :
    (force_set_roots_and_commit true true
        { file := none, tempRoot := zeroDigest, mainRoot := zeroDigest,
          counter := 5, commitInProgress := false } oneDigest).1.mainRoot = oneDigest ∧
    (force_set_roots_and_commit true false
        { file := none, tempRoot := zeroDigest, mainRoot := zeroDigest,
          counter := 5, commitInProgress := false } oneDigest).2.1 = false := by
  constructor
  · rw [(force_set_roots_and_commit_correct true
      { file := none, tempRoot := zeroDigest, mainRoot := zeroDigest,
        counter := 5, commitInProgress := false } oneDigest).1 rfl]
  · rw [(force_set_roots_and_commit_correct false
      { file := none, tempRoot := zeroDigest, mainRoot := zeroDigest,
        counter := 5, commitInProgress := false } oneDigest).2 rfl]

/-- Model metadata consumed by the write path (`domain/model`): table name,
primary-key field and the `validate_create_payload` hook (caller-provided,
so kept abstract as a function). -/
structure ModelInfo where
  tableName : String
  pkField : String
  validateCreate : Json → Except String Unit

/-- External collaborators of the `DatabaseService` write path
(`app/database_service.rs`).  `R` is the state of the application tables
(their SQL semantics are external), `T` the state of the in-memory SMT of
the external crate, `P` the crate's `MerkleProof` type.  `insertRow` /
`upsertRow` run one INSERT (resp. INSERT .. ON CONFLICT DO UPDATE)
returning the post-write row as JSON and the pk as text, `Except.error`
being a SQL error.  `fetchOldFails` injects an I/O failure into the
step-5 `merkle_nodes` read, which the code runs with
`.unwrap_or_default()`. -/
structure WriteEnv (R T P : Type) where
  sha256 : List Nat → Digest
  insertRow : R → Json → Except String (R × Json × String)
  upsertRow : R → Json → Except String (R × Json × String)
  generateProof : T → List Digest → Except String P
  computeRoot : P → List (Digest × Digest) → Option Digest
  treeUpdate : T → Digest × Digest → Except String T
  fetchOldFails : Bool

/-- State touched by a write: application rows, the `merkle_nodes` table
(node_hash to node_value), and the in-memory SMT.  The SQL transaction
covers `appRows` and `merkleNodes`; a rollback restores both. -/
structure ServiceState (R T : Type) where
  appRows : R
  merkleNodes : List (Digest × Digest)
  smtTree : T

/-- SQL `SELECT node_hash, node_value FROM merkle_nodes WHERE node_hash = ANY(keys)`. -/
def selectNodes (nodes : List (Digest × Digest)) (keys : List Digest) :
    List (Digest × Digest) :=
  nodes.filter (fun kv => keys.contains kv.1)

/-- First-match association lookup (`node_hash` is a primary key, so at
most one row per key exists; this models the `HashMap` built in step 5). -/
def lookupNode (k : Digest) : List (Digest × Digest) → Option Digest
  | [] => none
  | (k', v) :: rest => if k' == k then some v else lookupNode k rest

/-- Embedding of the step-5 read of prior leaf values in
`create_records` / `upsert_records`: the `merkle_nodes` query result is
taken with `.unwrap_or_default()` (an I/O error silently becomes no rows),
rows whose value is not 32 bytes are dropped, and absent keys map to the
zero digest. -/
def oldValuesFor {R T P : Type} (env : WriteEnv R T P)
    (nodes : List (Digest × Digest)) (keys : List Digest) : List Digest :=
  let rows := (if env.fetchOldFails then none else some (selectNodes nodes keys)).getD []
  let old_map := rows.filter (fun kv => kv.2.length == 32)
  keys.map (fun kb => (lookupNode kb old_map).getD zeroDigest)

/-- `INSERT .. ON CONFLICT (node_hash) DO UPDATE SET node_value = ..`
(`PostgresSmtStore::set_in_tx`). -/
def upsertNode (nodes : List (Digest × Digest)) (k v : Digest) :
    List (Digest × Digest) :=
  if nodes.any (fun kv => kv.1 == k) then
    nodes.map (fun kv => if kv.1 == k then (kv.1, v) else kv)
  else nodes ++ [(k, v)]

/-- Embedding of `SmtStore::apply_updates_in_tx`: each update is applied to
the in-memory tree and upserted into `merkle_nodes` inside the transaction;
a tree error aborts mid-way and the in-memory tree keeps the updates
already applied (the transaction itself is rolled back by the caller). -/
def apply_updates_in_tx {R T P : Type} (env : WriteEnv R T P) :
    T → List (Digest × Digest) → List (Digest × Digest) →
      Except (String × T) (T × List (Digest × Digest))
  | tree, nodes, [] => .ok (tree, nodes)
  | tree, nodes, (k, v) :: rest =>
      match env.treeUpdate tree (k, v) with
      | .error e => .error (e, tree)
      | .ok tree' => apply_updates_in_tx env tree' (upsertNode nodes k v) rest

/-- The validation loop at the top of `create_records`
(`validate_create_payload` over every record, first error wins). -/
def validateAll (model : ModelInfo) : List Json → Except String Unit
  | [] => .ok ()
  | r :: rest =>
      match model.validateCreate r with
      | .error e => .error e
      | .ok _ => validateAll model rest

/-- The per-record INSERT loop of `create_records`: rejects non-object
records, executes the INSERT, and collects the DB-returned rows, pk texts
and leaf-key hashes in batch order.  An error drops the transaction
(rollback). -/
def insertLoop {R T P : Type} (env : WriteEnv R T P) (model : ModelInfo) :
    R → List Json → Except String (R × List Json × List String × List Digest)
  | r, [] => .ok (r, [], [], [])
  | r, record :: rest =>
      match record with
      | .obj _ =>
          match env.insertRow r record with
          | .error e => .error e
          | .ok (r', returned, pk) =>
              match insertLoop env model r' rest with
              | .error e => .error e
              | .ok (r'', recs, ids, keys) =>
                  .ok (r'', returned :: recs, pk :: ids,
                    hash_key env.sha256 model.tableName pk :: keys)
      | _ => .error "Record must be a JSON object"

/-- Whether an object carries the given field. -/
def containsKey (entries : List (String × Json)) (k : String) : Bool :=
  entries.any (fun kv => kv.1 == k)

/-- The per-record loop of `upsert_records`: rejects non-object records,
records missing the primary-key field (the Rust message wraps the field
name in single quotes) and records with no non-PK column, then executes the
upsert and collects rows, pk texts and leaf-key hashes in batch order. -/
def upsertLoop {R T P : Type} (env : WriteEnv R T P) (model : ModelInfo) :
    R → List Json → Except String (R × List Json × List String × List Digest)
  | r, [] => .ok (r, [], [], [])
  | r, record :: rest =>
      match record with
      | .obj entries =>
          if containsKey entries model.pkField = false then
            .error ("Upsert record missing primary key field " ++ model.pkField)
          else if (entries.filter (fun kv => kv.1 != model.pkField)).isEmpty then
            .error "Upsert requires at least one non-PK field to update"
          else
            match env.upsertRow r record with
            | .error e => .error e
            | .ok (r', returned, pk) =>
                match upsertLoop env model r' rest with
                | .error e => .error e
                | .ok (r'', recs, ids, keys) =>
                    .ok (r'', returned :: recs, pk :: ids,
                      hash_key env.sha256 model.tableName pk :: keys)
      | _ => .error "Record must be a JSON object"

/-- Embedding of `DatabaseService::create_records`.  The returned state is
the post-call state of application rows, `merkle_nodes` and the in-memory
SMT: on any error path before `apply_updates_in_tx` the transaction is
rolled back (or was never committed), so the input state is returned
unchanged. -/
def create_records {R T P : Type} (env : WriteEnv R T P) (model : ModelInfo)
    (st : ServiceState R T) (records_data : List Json) (trusted_root : Digest) :
    ServiceState R T × Except String (Digest × P × List Json × List String) :=
  match validateAll model records_data with
  | .error e => (st, .error ("Validation error: " ++ e))
  | .ok _ =>
    if records_data.isEmpty then (st, .error "records_data cannot be empty")
    else
      match insertLoop env model st.appRows records_data with
      | .error e => (st, .error e)
      | .ok (appRows', inserted_records, inserted_ids, key_hashes) =>
        let value_hashes := inserted_records.map (hash_value env.sha256)
        let updates := key_hashes.zip value_hashes
        match env.generateProof st.smtTree key_hashes with
        | .error e => (st, .error e)
        | .ok proof =>
          let old_values := oldValuesFor env st.merkleNodes key_hashes
          let proposed_root :=
            (env.computeRoot proof (key_hashes.zip value_hashes)).getD zeroDigest
          let ok := verify_smt_multi_update_proof_with_old_values (env.computeRoot proof)
            trusted_root proposed_root key_hashes old_values value_hashes
          if ok then
            match apply_updates_in_tx env st.smtTree st.merkleNodes updates with
            | .error (e, tree') => ({ st with smtTree := tree' }, .error e)
            | .ok (tree', nodes') =>
                ({ appRows := appRows', merkleNodes := nodes', smtTree := tree' },
                  .ok (proposed_root, proof, inserted_records, inserted_ids))
          else
            (st, .error ("VERIFIABLE_PROOF_FAILED: trusted_root=" ++
              hexEncode trusted_root ++ " proposed_root=" ++ hexEncode proposed_root))

/-- Embedding of `DatabaseService::upsert_records` (same conventions as
`create_records`; no validation hook, empty check first). -/
def upsert_records {R T P : Type} (env : WriteEnv R T P) (model : ModelInfo)
    (st : ServiceState R T) (records_data : List Json) (trusted_root : Digest) :
    ServiceState R T × Except String (Digest × P × List Json × List String) :=
  if records_data.isEmpty then (st, .error "records_data cannot be empty")
  else
    match upsertLoop env model st.appRows records_data with
    | .error e => (st, .error e)
    | .ok (appRows', upserted_records, upserted_ids, key_hashes) =>
      let value_hashes := upserted_records.map (hash_value env.sha256)
      let updates := key_hashes.zip value_hashes
      match env.generateProof st.smtTree key_hashes with
      | .error e => (st, .error e)
      | .ok proof =>
        let old_values := oldValuesFor env st.merkleNodes key_hashes
        let proposed_root :=
          (env.computeRoot proof (key_hashes.zip value_hashes)).getD zeroDigest
        let ok := verify_smt_multi_update_proof_with_old_values (env.computeRoot proof)
          trusted_root proposed_root key_hashes old_values value_hashes
        if ok then
          match apply_updates_in_tx env st.smtTree st.merkleNodes updates with
          | .error (e, tree') => ({ st with smtTree := tree' }, .error e)
          | .ok (tree', nodes') =>
              ({ appRows := appRows', merkleNodes := nodes', smtTree := tree' },
                .ok (proposed_root, proof, upserted_records, upserted_ids))
        else
          (st, .error ("VERIFIABLE_PROOF_FAILED: trusted_root=" ++
            hexEncode trusted_root ++ " proposed_root=" ++ hexEncode proposed_root))

/-- C2: for both batch writes, whenever the proof verification of step 7
returns false the transaction is rolled back — the returned state
(application rows, `merkle_nodes` and the in-memory SMT) is exactly the
pre-call state — and the call fails with the error
`VERIFIABLE_PROOF_FAILED: trusted_root=<hex> proposed_root=<hex>`, which
begins with `VERIFIABLE_PROOF_FAILED` and carries both roots in hex.
Neither function receives the RootManager state at all, so no root value
can change (the root advance happens only after a successful return). -/
theorem proof_failure_rolls_back {R T P : Type} (env : WriteEnv R T P) (model : ModelInfo)
    (st : ServiceState R T) (records_data : List Json) (trusted_root : Digest) :
    (∀ (appRows' : R) (recs : List Json) (ids : List String) (keys : List Digest)
        (proof : P) (proposed_root : Digest),
      validateAll model records_data = .ok () →
      records_data ≠ [] →
      insertLoop env model st.appRows records_data = .ok (appRows', recs, ids, keys) →
      env.generateProof st.smtTree keys = .ok proof →
      proposed_root =
        (env.computeRoot proof (keys.zip (recs.map (hash_value env.sha256)))).getD zeroDigest →
      verify_smt_multi_update_proof_with_old_values (env.computeRoot proof) trusted_root
        proposed_root keys (oldValuesFor env st.merkleNodes keys)
        (recs.map (hash_value env.sha256)) = false →
      create_records env model st records_data trusted_root =
        (st, .error ("VERIFIABLE_PROOF_FAILED: trusted_root=" ++ hexEncode trusted_root ++
          " proposed_root=" ++ hexEncode proposed_root))) ∧
    (∀ (appRows' : R) (recs : List Json) (ids : List String) (keys : List Digest)
        (proof : P) (proposed_root : Digest),
      records_data ≠ [] →
      upsertLoop env model st.appRows records_data = .ok (appRows', recs, ids, keys) →
      env.generateProof st.smtTree keys = .ok proof →
      proposed_root =
        (env.computeRoot proof (keys.zip (recs.map (hash_value env.sha256)))).getD zeroDigest →
      verify_smt_multi_update_proof_with_old_values (env.computeRoot proof) trusted_root
        proposed_root keys (oldValuesFor env st.merkleNodes keys)
        (recs.map (hash_value env.sha256)) = false →
      upsert_records env model st records_data trusted_root =
        (st, .error ("VERIFIABLE_PROOF_FAILED: trusted_root=" ++ hexEncode trusted_root ++
          " proposed_root=" ++ hexEncode proposed_root))) := by
  constructor
  · intro appRows' recs ids keys proof proposed_root hval hne hins hproof hprop hver
    have hie : records_data.isEmpty = false := by
      cases records_data
      · exact absurd rfl hne
      · rfl
    subst hprop
    unfold create_records
    rw [hval]
    simp only [hie, Bool.false_eq_true, if_false]
    rw [hins]
    simp [hproof, hver]
  · intro appRows' recs ids keys proof proposed_root hne hins hproof hprop hver
    have hie : records_data.isEmpty = false := by
      cases records_data
      · exact absurd rfl hne
      · rfl
    subst hprop
    unfold upsert_records
    simp only [hie, Bool.false_eq_true, if_false]
    rw [hins]
    simp [hproof, hver]

/-- Write environment for the C2 witness: the external proof recomputation
returns a root different from the trusted root, so verification fails. -/
def envProofFail : WriteEnv Nat Unit Unit where
  sha256 := fun _ => zeroDigest
  insertRow := fun r record => .ok (r, record, "1")
  upsertRow := fun r record => .ok (r, record, "1")
  generateProof := fun _ _ => .ok ()
  computeRoot := fun _ _ => some oneDigest
  treeUpdate := fun t _ => .ok t
  fetchOldFails := false

/-- The model used in concrete write runs. -/
def modelUsers : ModelInfo where
  tableName := "users"
  pkField := "id"
  validateCreate := fun _ => .ok ()

/-- An empty pre-call service state. -/
def stEmpty : ServiceState Nat Unit where
  appRows := 0
  merkleNodes := []
  smtTree := ()

/-- A one-row record with primary key 1 and one non-PK column. -/
def recOneV : Json := .obj [("id", .num "1"), ("v", .num "7")]

/-- Witness for C2: a concrete failing verification rolls back both the
create and the upsert path with the exact error string. -/
theorem proof_failure_rolls_back_witness :
    create_records envProofFail modelUsers stEmpty [recOneV] zeroDigest =
      (stEmpty, .error ("VERIFIABLE_PROOF_FAILED: trusted_root=" ++ hexEncode zeroDigest ++
        " proposed_root=" ++ hexEncode oneDigest)) ∧
    upsert_records envProofFail modelUsers stEmpty [recOneV] zeroDigest =
      (stEmpty, .error ("VERIFIABLE_PROOF_FAILED: trusted_root=" ++ hexEncode zeroDigest ++
        " proposed_root=" ++ hexEncode oneDigest)) :=
  ⟨(proof_failure_rolls_back envProofFail modelUsers stEmpty [recOneV] zeroDigest).1
      stEmpty.appRows [recOneV] ["1"] [hash_key envProofFail.sha256 "users" "1"] () oneDigest
      rfl (List.cons_ne_nil _ _) rfl rfl rfl rfl,
   (proof_failure_rolls_back envProofFail modelUsers stEmpty [recOneV] zeroDigest).2
      stEmpty.appRows [recOneV] ["1"] [hash_key envProofFail.sha256 "users" "1"] () oneDigest
      (List.cons_ne_nil _ _) rfl rfl rfl rfl⟩

/-- Write environment for the C3 evaluation: SHA-256 is the identity on
byte strings (any injective instantiation makes the same point), the SQL
upsert succeeds and reports primary key "1" for every record (two records
with id 1), and the external SMT calls succeed with consistent roots. -/
def envDup : WriteEnv Nat Unit Unit where
  sha256 := fun l => l
  insertRow := fun r record => .ok (r, record, "1")
  upsertRow := fun r record => .ok (r, record, "1")
  generateProof := fun _ _ => .ok ()
  computeRoot := fun _ _ => some zeroDigest
  treeUpdate := fun t _ => .ok t
  fetchOldFails := false

/-- First duplicate record: id 1, v 1. -/
def recDupA : Json := .obj [("id", .num "1"), ("v", .num "1")]

/-- Second duplicate record: id 1, v 2. -/
def recDupB : Json := .obj [("id", .num "1"), ("v", .num "2")]

/-- C3 evaluation at the failing input: a two-record upsert batch in which
both records map to the same leaf key `H2("users", "1")` is not rejected —
no duplicate-key check exists anywhere in `create_records` or
`upsert_records`.  The batch reaches the proof step with the leaf key
duplicated (first conjunct) and, when verification passes, the write
completes successfully (second conjunct), contradicting the claim that the
batch is rejected before step 4 with no state change. -/
theorem upsert_records_accepts_duplicate_leaf_keys :
    upsertLoop envDup modelUsers stEmpty.appRows [recDupA, recDupB] =
      .ok (stEmpty.appRows, [recDupA, recDupB], ["1", "1"],
        [hash_key envDup.sha256 "users" "1", hash_key envDup.sha256 "users" "1"]) ∧
    (upsert_records envDup modelUsers stEmpty [recDupA, recDupB] zeroDigest).2 =
      .ok (zeroDigest, (), [recDupA, recDupB], ["1", "1"]) :=
  ⟨rfl, rfl⟩

/-- Write environment for the C6 evaluation: like `envDup` but the step-5
read of prior leaf values from `merkle_nodes` fails with an I/O error. -/
def envReadFail : WriteEnv Nat Unit Unit where
  sha256 := fun l => l
  insertRow := fun r record => .ok (r, record, "1")
  upsertRow := fun r record => .ok (r, record, "1")
  generateProof := fun _ _ => .ok ()
  computeRoot := fun _ _ => some zeroDigest
  treeUpdate := fun t _ => .ok t
  fetchOldFails := true

/-- Pre-call state for the C6 evaluation: `merkle_nodes` already holds a
non-zero 32-byte value for the written key, so a successful read would have
returned it. -/
def stWithNode : ServiceState Nat Unit where
  appRows := 0
  merkleNodes := [(hash_key (fun l => l) "users" "1", oneDigest)]
  smtTree := ()

/-- C6 evaluation at the failing input: the `merkle_nodes` read in step 5
fails, but `.unwrap_or_default()` silently turns the failure into an empty
result, so the prior leaf value becomes the zero digest (first conjunct)
even though the store holds a non-zero value for that key (second
conjunct), and the write proceeds to verification and commits successfully
(third conjunct) — the transaction is neither aborted nor is any error
surfaced, contradicting the claim. -/
theorem store_read_failure_is_swallowed :
    oldValuesFor envReadFail stWithNode.merkleNodes
        [hash_key envReadFail.sha256 "users" "1"] = [zeroDigest] ∧
    lookupNode (hash_key envReadFail.sha256 "users" "1") stWithNode.merkleNodes =
      some oneDigest ∧
    (create_records envReadFail modelUsers stWithNode [recOneV] zeroDigest).2 =
      .ok (zeroDigest, (), [recOneV], ["1"]) :=
  ⟨rfl, rfl, rfl⟩

/-- First-match lookup of an object field by key. -/
def lookupJson (k : String) : List (String × Json) → Option Json
  | [] => none
  | (k', v) :: rest => if k' = k then some v else lookupJson k rest

/-- Pairwise distinctness of a key list (serde_json object maps cannot
hold duplicate keys). -/
def distinctKeys : List String → Bool
  | [] => true
  | k :: rest => !(rest.contains k) && distinctKeys rest

mutual
/-- Well-formedness of a JSON value as produced by serde_json: object keys
are pairwise distinct at every nesting depth. -/
def wfJson (v : Json) : Bool :=
  match v with
  | .null => true
  | .bool _ => true
  | .num _ => true
  | .str _ => true
  | .arr items => wfJsonList items
  | .obj entries => distinctKeys (entries.map Prod.fst) && wfJsonEntries entries
termination_by sizeOf v

/-- Well-formedness of every item of an array. -/
def wfJsonList (items : List Json) : Bool :=
  match items with
  | [] => true
  | x :: xs => wfJson x && wfJsonList xs
termination_by sizeOf items

/-- Well-formedness of every value of an object. -/
def wfJsonEntries (entries : List (String × Json)) : Bool :=
  match entries with
  | [] => true
  | (_, v) :: rest => wfJson v && wfJsonEntries rest
termination_by sizeOf entries
end

mutual
/-- Equality of two JSON values as unordered maps, following the claim:
the same key/value entries at every nesting depth, possibly listed in
different orders, with array element order preserved.  Scalars must be
equal, arrays pointwise equal, and objects must have the same number of
entries with every entry of the first found by key in the second with an
unordered-equal value (for well-formed values this says the two objects
are equal as finite maps). -/
def mapEq (v1 v2 : Json) : Bool :=
  match v1, v2 with
  | .null, .null => true
  | .bool a, .bool b => a == b
  | .num a, .num b => a == b
  | .str a, .str b => a == b
  | .arr xs, .arr ys => mapEqList xs ys
  | .obj o1, .obj o2 => o1.length == o2.length && mapEqEntries o1 o2
  | _, _ => false
termination_by sizeOf v1

/-- Pointwise unordered-map equality of array items. -/
def mapEqList (xs ys : List Json) : Bool :=
  match xs, ys with
  | [], [] => true
  | x :: xs', y :: ys' => mapEq x y && mapEqList xs' ys'
  | _, _ => false
termination_by sizeOf xs

/-- Every entry of the first object is found by key in the second with an
unordered-equal value. -/
def mapEqEntries (o1 o2 : List (String × Json)) : Bool :=
  match o1 with
  | [] => true
  | (k, v) :: rest =>
      (match lookupJson k o2 with
       | some v' => mapEq v v'
       | none => false) && mapEqEntries rest o2
termination_by sizeOf o1
end

/-- Array items are smaller than the array value. -/
theorem sizeOf_lt_of_mem_arr {x : Json} {xs : List Json} (h : x ∈ xs) :
    sizeOf x < sizeOf (Json.arr xs) := by
  induction xs with
  | nil => cases h
  | cons y rest ih =>
      cases h with
      | head => simp; omega
      | tail _ h2 =>
          have := ih h2
          simp at this ⊢
          omega

/-- Object entry values are smaller than the object value. -/
theorem sizeOf_lt_of_mem_obj {k : String} {v : Json} {entries : List (String × Json)}
    (h : (k, v) ∈ entries) : sizeOf v < sizeOf (Json.obj entries) := by
  induction entries with
  | nil => cases h
  | cons kv rest ih =>
      cases h with
      | head => simp; omega
      | tail _ h2 =>
          have := ih h2
          simp at this ⊢
          omega

/-- The list helper of `sort_json_value` is a map. -/
theorem sortJsonList_eq_map (items : List Json) :
    sortJsonList items = items.map sort_json_value := by
  induction items with
  | nil => simp [sortJsonList]
  | cons x rest ih => simp [sortJsonList, ih]

/-- The entries helper of `sort_json_value` is a map on the values. -/
theorem sortJsonEntries_eq_map (entries : List (String × Json)) :
    sortJsonEntries entries = entries.map (fun kv => (kv.1, sort_json_value kv.2)) := by
  induction entries with
  | nil => simp [sortJsonEntries]
  | cons kv rest ih =>
      obtain ⟨k, v⟩ := kv
      simp [sortJsonEntries, ih]

/-- Lookup commutes with the value-sorting map. -/
theorem lookupJson_map_sort (k : String) (entries : List (String × Json)) :
    lookupJson k (entries.map (fun kv => (kv.1, sort_json_value kv.2))) =
      (lookupJson k entries).map sort_json_value := by
  induction entries with
  | nil => simp [lookupJson]
  | cons kv rest ih =>
      obtain ⟨k', v⟩ := kv
      by_cases hk : k' = k
      · simp [lookupJson, hk]
      · simp [lookupJson, hk, ih]

/-- The value-sorting map preserves the key list. -/
theorem keys_map_sort (entries : List (String × Json)) :
    (entries.map (fun kv => (kv.1, sort_json_value kv.2))).map Prod.fst =
      entries.map Prod.fst := by
  induction entries with
  | nil => rfl
  | cons kv rest ih => simp [ih]

/-- A successful lookup exhibits a member entry. -/
theorem mem_of_lookupJson_eq_some {k : String} {v : Json} {l : List (String × Json)}
    (h : lookupJson k l = some v) : (k, v) ∈ l := by
  induction l with
  | nil => simp [lookupJson] at h
  | cons kv rest ih =>
      obtain ⟨k', v'⟩ := kv
      by_cases hk : k' = k
      · subst hk
        simp [lookupJson] at h
        subst h
        exact List.mem_cons_self _ _
      · simp [lookupJson, hk] at h
        exact List.mem_cons_of_mem _ (ih h)

/-- A successful lookup puts the key among the object keys. -/
theorem mem_keys_of_lookupJson_eq_some {k : String} {v : Json} {l : List (String × Json)}
    (h : lookupJson k l = some v) : k ∈ l.map Prod.fst :=
  List.mem_map.2 ⟨(k, v), mem_of_lookupJson_eq_some h, rfl⟩

/-- Lookup fails exactly when the key is absent. -/
theorem lookupJson_eq_none_iff {k : String} {l : List (String × Json)} :
    lookupJson k l = none ↔ k ∉ l.map Prod.fst := by
  induction l with
  | nil => simp [lookupJson]
  | cons kv rest ih =>
      obtain ⟨k', v'⟩ := kv
      by_cases hk : k' = k
      · subst hk
        simp [lookupJson]
      · simp [lookupJson, hk, ih, Ne.symm hk]

/-- Under distinct keys, membership determines the lookup result. -/
theorem lookupJson_of_mem_nodup {k : String} {v : Json} {l : List (String × Json)}
    (hnd : (l.map Prod.fst).Nodup) (h : (k, v) ∈ l) : lookupJson k l = some v := by
  induction l with
  | nil => cases h
  | cons kv rest ih =>
      obtain ⟨k', v'⟩ := kv
      simp only [List.map_cons, List.nodup_cons] at hnd
      cases h with
      | head => simp [lookupJson]
      | tail _ h2 =>
          have hk : k' ≠ k := by
            intro hkk
            subst hkk
            exact hnd.1 (List.mem_map.2 ⟨(k', v), h2, rfl⟩)
          simp [lookupJson, hk]
          exact ih hnd.2 h2

/-- The Bool key-distinctness check coincides with `List.Nodup`. -/
theorem distinctKeys_iff {l : List String} : distinctKeys l = true ↔ l.Nodup := by
  induction l with
  | nil => simp [distinctKeys]
  | cons k rest ih => simp [distinctKeys, ih, List.elem_iff]

/-- Under distinct keys, lookup is invariant under permutation. -/
theorem lookupJson_perm {l1 l2 : List (String × Json)} (h : l1.Perm l2)
    (hnd : (l1.map Prod.fst).Nodup) (k : String) :
    lookupJson k l1 = lookupJson k l2 := by
  have hnd2 : (l2.map Prod.fst).Nodup := ((h.map Prod.fst).nodup_iff).1 hnd
  cases hl : lookupJson k l1 with
  | some v =>
      have hmem := mem_of_lookupJson_eq_some hl
      exact (lookupJson_of_mem_nodup hnd2 (h.mem_iff.1 hmem)).symm
  | none =>
      have hk : k ∉ l1.map Prod.fst := lookupJson_eq_none_iff.1 hl
      have hk2 : k ∉ l2.map Prod.fst := fun hm =>
        hk (((h.map Prod.fst).mem_iff).2 hm)
      exact (lookupJson_eq_none_iff.2 hk2).symm

/-- Two key-sorted association lists with distinct keys and equal lookups
are equal. -/
theorem sorted_nodupkeys_ext : ∀ (s1 s2 : List (String × Json)),
    List.Sorted entryLe s1 → List.Sorted entryLe s2 →
    (s1.map Prod.fst).Nodup → (s2.map Prod.fst).Nodup →
    (∀ k, lookupJson k s1 = lookupJson k s2) → s1 = s2 := by
  intro s1
  induction s1 with
  | nil =>
      intro s2 _ _ _ _ hlook
      cases s2 with
      | nil => rfl
      | cons kv rest =>
          obtain ⟨k, v⟩ := kv
          have := hlook k
          simp [lookupJson] at this
  | cons kv t1 ih =>
      obtain ⟨k1, v1⟩ := kv
      intro s2 hs1 hs2 hnd1 hnd2 hlook
      cases s2 with
      | nil =>
          have := hlook k1
          simp [lookupJson] at this
      | cons kv2 t2 =>
          obtain ⟨k2, v2⟩ := kv2
          rw [List.sorted_cons] at hs1 hs2
          simp only [List.map_cons, List.nodup_cons] at hnd1 hnd2
          -- the two head keys coincide
          have hl1 : lookupJson k1 ((k1, v1) :: t1) = some v1 := by simp [lookupJson]
          have hl2 : lookupJson k2 ((k2, v2) :: t2) = some v2 := by simp [lookupJson]
          have hmem1 : k1 ∈ ((k2, v2) :: t2).map Prod.fst :=
            mem_keys_of_lookupJson_eq_some ((hlook k1).symm ▸ hl1)
          have hmem2 : k2 ∈ ((k1, v1) :: t1).map Prod.fst :=
            mem_keys_of_lookupJson_eq_some ((hlook k2) ▸ hl2)
          have hk21 : k2 ≤ k1 := by
            simp only [List.map_cons, List.mem_cons] at hmem1
            cases hmem1 with
            | inl h => exact le_of_eq h.symm
            | inr h =>
                obtain ⟨⟨k', v'⟩, hmem, rfl⟩ := List.mem_map.1 h
                exact hs2.1 (k', v') hmem
          have hk12 : k1 ≤ k2 := by
            simp only [List.map_cons, List.mem_cons] at hmem2
            cases hmem2 with
            | inl h => exact le_of_eq h.symm
            | inr h =>
                obtain ⟨⟨k', v'⟩, hmem, rfl⟩ := List.mem_map.1 h
                exact hs1.1 (k', v') hmem
          have hkk : k1 = k2 := le_antisymm hk12 hk21
          subst hkk
          -- the head values coincide
          have hv : v1 = v2 := by
            have := hlook k1
            simp [lookupJson] at this
            exact this
          subst hv
          -- the tails have equal lookups
          have htail : ∀ k, lookupJson k t1 = lookupJson k t2 := by
            intro k
            by_cases hk : k = k1
            · subst hk
              rw [lookupJson_eq_none_iff.2 hnd1.1, lookupJson_eq_none_iff.2 hnd2.1]
            · have := hlook k
              simp [lookupJson, Ne.symm hk] at this
              exact this
          rw [ih t2 hs1.2 hs2.2 hnd1.2 hnd2.2 htail]

/-- Characterization of array well-formedness. -/
theorem wfJsonList_iff {xs : List Json} :
    wfJsonList xs = true ↔ ∀ x ∈ xs, wfJson x = true := by
  induction xs with
  | nil => simp [wfJsonList]
  | cons x rest ih => simp [wfJsonList, ih]

/-- Characterization of object-entry well-formedness. -/
theorem wfJsonEntries_iff {entries : List (String × Json)} :
    wfJsonEntries entries = true ↔ ∀ kv ∈ entries, wfJson kv.2 = true := by
  induction entries with
  | nil => simp [wfJsonEntries]
  | cons kv rest ih =>
      obtain ⟨k, v⟩ := kv
      simp [wfJsonEntries, ih]

/-- Characterization of a well-formed array value. -/
theorem wfJson_arr_iff {xs : List Json} :
    wfJson (.arr xs) = true ↔ ∀ x ∈ xs, wfJson x = true := by
  simp [wfJson, wfJsonList_iff]

/-- Characterization of a well-formed object value. -/
theorem wfJson_obj_iff {entries : List (String × Json)} :
    wfJson (.obj entries) = true ↔
      (entries.map Prod.fst).Nodup ∧ ∀ kv ∈ entries, wfJson kv.2 = true := by
  simp [wfJson, wfJsonEntries_iff, distinctKeys_iff]

/-- Characterization of the object-entry comparison of `mapEq`. -/
theorem mapEqEntries_iff {o1 o2 : List (String × Json)} :
    mapEqEntries o1 o2 = true ↔
      ∀ kv ∈ o1, ∃ v', lookupJson kv.1 o2 = some v' ∧ mapEq kv.2 v' = true := by
  induction o1 with
  | nil => simp [mapEqEntries]
  | cons kv rest ih =>
      obtain ⟨k, v⟩ := kv
      rw [mapEqEntries]
      cases hl : lookupJson k o2 with
      | none => simp [hl, ih]
      | some v' => simp [hl, ih]

/-- Core congruence: on well-formed JSON values, `sort_json_value` maps
unordered-map-equal values to the same canonical value (strong induction
on the size of the first value). -/
theorem sort_json_value_congr : ∀ (n : Nat) (v1 v2 : Json), sizeOf v1 ≤ n →
    wfJson v1 = true → wfJson v2 = true → mapEq v1 v2 = true →
    sort_json_value v1 = sort_json_value v2 := by
  intro n
  induction n with
  | zero =>
      intro v1 v2 hsz hw1 hw2 hm
      exfalso
      have hpos : 0 < sizeOf v1 := by cases v1 <;> simp
      omega
  | succ n ih =>
      intro v1 v2 hsz hw1 hw2 hm
      cases v1 with
      | null =>
          cases v2 with
          | null => rfl
          | bool b => simp [mapEq] at hm
          | num s => simp [mapEq] at hm
          | str s => simp [mapEq] at hm
          | arr ys => simp [mapEq] at hm
          | obj o2 => simp [mapEq] at hm
      | bool a =>
          cases v2 with
          | bool b => simp [mapEq] at hm; subst hm; rfl
          | null => simp [mapEq] at hm
          | num s => simp [mapEq] at hm
          | str s => simp [mapEq] at hm
          | arr ys => simp [mapEq] at hm
          | obj o2 => simp [mapEq] at hm
      | num a =>
          cases v2 with
          | num b => simp [mapEq] at hm; subst hm; rfl
          | null => simp [mapEq] at hm
          | bool b => simp [mapEq] at hm
          | str s => simp [mapEq] at hm
          | arr ys => simp [mapEq] at hm
          | obj o2 => simp [mapEq] at hm
      | str a =>
          cases v2 with
          | str b => simp [mapEq] at hm; subst hm; rfl
          | null => simp [mapEq] at hm
          | bool b => simp [mapEq] at hm
          | num s => simp [mapEq] at hm
          | arr ys => simp [mapEq] at hm
          | obj o2 => simp [mapEq] at hm
      | arr xs =>
          cases v2 with
          | null => simp [mapEq] at hm
          | bool b => simp [mapEq] at hm
          | num s => simp [mapEq] at hm
          | str s => simp [mapEq] at hm
          | obj o2 => simp [mapEq] at hm
          | arr ys =>
              simp only [mapEq] at hm
              rw [wfJson_arr_iff] at hw1 hw2
              have hlist : ∀ (as bs : List Json), (∀ a ∈ as, sizeOf a ≤ n) →
                  (∀ a ∈ as, wfJson a = true) → (∀ b ∈ bs, wfJson b = true) →
                  mapEqList as bs = true → sortJsonList as = sortJsonList bs := by
                intro as
                induction as with
                | nil =>
                    intro bs _ _ _ hmeq
                    cases bs with
                    | nil => rfl
                    | cons b bs' => simp [mapEqList] at hmeq
                | cons a as' ihl =>
                    intro bs hsz' hwa hwb hmeq
                    cases bs with
                    | nil => simp [mapEqList] at hmeq
                    | cons b bs' =>
                        simp only [mapEqList, Bool.and_eq_true] at hmeq
                        have h1 := ih a b (hsz' a (List.mem_cons_self _ _))
                          (hwa a (List.mem_cons_self _ _))
                          (hwb b (List.mem_cons_self _ _)) hmeq.1
                        have h2 := ihl bs'
                          (fun x hx => hsz' x (List.mem_cons_of_mem _ hx))
                          (fun x hx => hwa x (List.mem_cons_of_mem _ hx))
                          (fun x hx => hwb x (List.mem_cons_of_mem _ hx)) hmeq.2
                        simp [sortJsonList, h1, h2]
              have hsz' : ∀ a ∈ xs, sizeOf a ≤ n := by
                intro a ha
                have := sizeOf_lt_of_mem_arr ha
                omega
              simp only [sort_json_value]
              rw [hlist xs ys hsz' hw1 hw2 hm]
      | obj o1 =>
          cases v2 with
          | null => simp [mapEq] at hm
          | bool b => simp [mapEq] at hm
          | num s => simp [mapEq] at hm
          | str s => simp [mapEq] at hm
          | arr ys => simp [mapEq] at hm
          | obj o2 =>
              simp only [mapEq, Bool.and_eq_true, beq_iff_eq] at hm
              obtain ⟨hlen, hent⟩ := hm
              rw [wfJson_obj_iff] at hw1 hw2
              obtain ⟨hnd1, hv1⟩ := hw1
              obtain ⟨hnd2, hv2⟩ := hw2
              have hentc := mapEqEntries_iff.1 hent
              have hsub : (o1.map Prod.fst) ⊆ (o2.map Prod.fst) := by
                intro k hk
                obtain ⟨kv, hmem, hfst⟩ := List.mem_map.1 hk
                obtain ⟨v', hl, -⟩ := hentc kv hmem
                exact hfst ▸ mem_keys_of_lookupJson_eq_some hl
              have hperm : (o1.map Prod.fst).Perm (o2.map Prod.fst) :=
                (List.subperm_of_subset hnd1 hsub).perm_of_length_le (by simp [hlen])
              have hlook : ∀ k,
                  lookupJson k (o1.map (fun kv => (kv.1, sort_json_value kv.2))) =
                    lookupJson k (o2.map (fun kv => (kv.1, sort_json_value kv.2))) := by
                intro k
                rw [lookupJson_map_sort, lookupJson_map_sort]
                cases hl1 : lookupJson k o1 with
                | some v =>
                    have hmem := mem_of_lookupJson_eq_some hl1
                    obtain ⟨v', hl2, hmv⟩ := hentc (k, v) hmem
                    rw [hl2]
                    have hszv : sizeOf v ≤ n := by
                      have := sizeOf_lt_of_mem_obj hmem
                      omega
                    have heq := ih v v' hszv (hv1 (k, v) hmem)
                      (hv2 (k, v') (mem_of_lookupJson_eq_some hl2)) hmv
                    simp [heq]
                | none =>
                    have hk1 : k ∉ o1.map Prod.fst := lookupJson_eq_none_iff.1 hl1
                    have hk2 : k ∉ o2.map Prod.fst := fun h => hk1 (hperm.mem_iff.2 h)
                    rw [lookupJson_eq_none_iff.2 hk2]
              simp only [sort_json_value]
              congr 1
              rw [sortJsonEntries_eq_map, sortJsonEntries_eq_map]
              have hnd1' : ((o1.map (fun kv => (kv.1, sort_json_value kv.2))).map
                  Prod.fst).Nodup := by
                rw [keys_map_sort]; exact hnd1
              have hnd2' : ((o2.map (fun kv => (kv.1, sort_json_value kv.2))).map
                  Prod.fst).Nodup := by
                rw [keys_map_sort]; exact hnd2
              have hp1 := List.perm_insertionSort entryLe
                (o1.map (fun kv => (kv.1, sort_json_value kv.2)))
              have hp2 := List.perm_insertionSort entryLe
                (o2.map (fun kv => (kv.1, sort_json_value kv.2)))
              have hs1 := List.sorted_insertionSort entryLe
                (o1.map (fun kv => (kv.1, sort_json_value kv.2)))
              have hs2 := List.sorted_insertionSort entryLe
                (o2.map (fun kv => (kv.1, sort_json_value kv.2)))
              have hnds1 : ((List.insertionSort entryLe
                  (o1.map (fun kv => (kv.1, sort_json_value kv.2)))).map Prod.fst).Nodup :=
                ((hp1.map Prod.fst).nodup_iff).2 hnd1'
              have hnds2 : ((List.insertionSort entryLe
                  (o2.map (fun kv => (kv.1, sort_json_value kv.2)))).map Prod.fst).Nodup :=
                ((hp2.map Prod.fst).nodup_iff).2 hnd2'
              apply sorted_nodupkeys_ext _ _ hs1 hs2 hnds1 hnds2
              intro k
              rw [lookupJson_perm hp1 hnds1 k, lookupJson_perm hp2 hnds2 k]
              exact hlook k

/-- C8: `hash_value` is invariant under the ordering of object keys — for
every two well-formed JSON values equal as unordered maps (the same
key/value entries at every nesting depth, possibly listed in different
orders, with array element order preserved), it returns the same digest,
namely SHA-256 of `TAG_LEAF` followed by the compact serialization of the
recursively key-sorted value; this holds for every SHA-256 instantiation. -/
theorem hash_value_key_order_invariant (sha256 : List Nat → Digest) (v1 v2 : Json)
    (h1 : wfJson v1 = true) (h2 : wfJson v2 = true) (h : mapEq v1 v2 = true) :
    hash_value sha256 v1 = hash_value sha256 v2 ∧
    hash_value sha256 v1 =
      sha256 (LEAF_DOMAIN ++ utf8Encode (serializeJson (sort_json_value v1))) := by
  have hs := sort_json_value_congr (sizeOf v1) v1 v2 le_rfl h1 h2 h
  constructor
  · unfold hash_value hashValueInput
    rw [hs]
  · rfl

/-- Witness object with keys listed as b, a. -/
def jsonBA : Json := .obj [("b", .num "1"), ("a", .str "x")]

/-- Witness object with the same entries listed as a, b. -/
def jsonAB : Json := .obj [("a", .str "x"), ("b", .num "1")]

/-- Witness for C8: two concrete objects with the same entries in
different key orders are well-formed, unordered-map equal, and hash to the
same digest. -/
theorem hash_value_key_order_invariant_witness :
    (wfJson jsonBA = true ∧ wfJson jsonAB = true ∧ mapEq jsonBA jsonAB = true) ∧
    hash_value (fun l => l) jsonBA = hash_value (fun l => l) jsonAB := by
  have hwBA : wfJson jsonBA = true := by
    show wfJson (.obj [("b", .num "1"), ("a", .str "x")]) = true
    rw [wfJson_obj_iff]
    refine ⟨by decide, ?_⟩
    intro kv hkv
    simp only [List.mem_cons, List.not_mem_nil, or_false] at hkv
    rcases hkv with rfl | rfl <;> simp [wfJson]
  have hwAB : wfJson jsonAB = true := by
    show wfJson (.obj [("a", .str "x"), ("b", .num "1")]) = true
    rw [wfJson_obj_iff]
    refine ⟨by decide, ?_⟩
    intro kv hkv
    simp only [List.mem_cons, List.not_mem_nil, or_false] at hkv
    rcases hkv with rfl | rfl <;> simp [wfJson]
  have hm : mapEq jsonBA jsonAB = true := by
    show mapEq (.obj [("b", .num "1"), ("a", .str "x")])
      (.obj [("a", .str "x"), ("b", .num "1")]) = true
    have hb : lookupJson "b" [("a", Json.str "x"), ("b", Json.num "1")] =
        some (.num "1") := rfl
    have ha : lookupJson "a" [("a", Json.str "x"), ("b", Json.num "1")] =
        some (.str "x") := rfl
    simp [mapEq, mapEqEntries, hb, ha]
  exact ⟨⟨hwBA, hwAB, hm⟩,
    (hash_value_key_order_invariant (fun l => l) jsonBA jsonAB hwBA hwAB hm).1⟩

end VerifiableMemory
